import Mathlib

/-!
Verification of the picireny CLI driver (`picireny/cli.py`) against its
natural-language specification.  The Python functions are shallowly embedded
as Lean definitions: pure control flow is translated directly, file-system
and JSON effects become explicit environment parameters, and the external
collaborators (the hddmin engine, the tree transforms, the unparser) become
function parameters whose calls the embedding records.
-/

namespace Picireny

/-! ### Decimal rendering of naturals

Embeds the Python percent formatting `"%d" % n`, used by `reduce` for the
per-phase work directory `"phase_%d" % phase_cnt` and id prefix
`"p%d" % phase_cnt`. -/

/-- Decimal rendering of a natural number, as the Python formatting `"%d" % n`. -/
def natDecStr (n : Nat) : String :=
  if n = 0 then "0" else ⟨((Nat.digits 10 n).map (fun d => Char.ofNat (48 + d))).reverse⟩

/-- Parse a decimal string back to a natural number (left inverse of `natDecStr`). -/
def decStrVal (s : String) : Nat :=
  Nat.ofDigits 10 ((s.data.map (fun c => c.toNat - 48)).reverse)

/-! ### Transform pipeline

Embeds the tree-transformation stage of `reduce` (cli.py lines 265-280).
The four transform passes themselves live outside the driver; they are
parameters of the embedding, which fixes only which passes run, in which
order, and with which arguments. -/

/-- Names of the four transform passes applied by `reduce`. -/
inductive Pass
  | flatten
  | squeeze
  | skipUnremovable
  | skipWhitespace
deriving DecidableEq, Repr

/-- The transform stage of `reduce`: `flatten_recursion`, `squeeze_tree`,
`skip_unremovable` (which receives `unparse_with_whitespace`), then
`skip_whitespace`, each guarded by its boolean flag, in the source order of
cli.py lines 265-280. -/
def applyTransforms {α : Type} (flatten_recursion squeeze_tree skip_unremovable skip_whitespace : Bool)
    (unparse_with_whitespace : Bool)
    (flattenF squeezeF : α → α) (skipUnremovableF : α → Bool → α) (skipWhitespaceF : α → α)
    (hdd_tree : α) : α :=
  let t1 := if flatten_recursion then flattenF hdd_tree else hdd_tree
  let t2 := if squeeze_tree then squeezeF t1 else t1
  let t3 := if skip_unremovable then skipUnremovableF t2 unparse_with_whitespace else t2
  if skip_whitespace then skipWhitespaceF t3 else t3

/-- Trace of the pipeline: instantiating the abstract passes with
trace-appending functions records which passes run and in which order. -/
def transformTrace (flatten_recursion squeeze_tree skip_unremovable skip_whitespace : Bool) :
    List Pass :=
  applyTransforms flatten_recursion squeeze_tree skip_unremovable skip_whitespace true
    (fun l => l ++ [Pass.flatten]) (fun l => l ++ [Pass.squeeze])
    (fun l _ => l ++ [Pass.skipUnremovable]) (fun l => l ++ [Pass.skipWhitespace]) []

/-- The pass order as the specification sentence states it (squeeze first,
then flatten-recursion, then skip-unremovable, then skip-whitespace), written
from the words of the spec for refinement comparison with `applyTransforms`. -/
def claimedTransforms {α : Type} (flatten_recursion squeeze_tree skip_unremovable skip_whitespace : Bool)
    (unparse_with_whitespace : Bool)
    (flattenF squeezeF : α → α) (skipUnremovableF : α → Bool → α) (skipWhitespaceF : α → α)
    (hdd_tree : α) : α :=
  let t1 := if squeeze_tree then squeezeF hdd_tree else hdd_tree
  let t2 := if flatten_recursion then flattenF t1 else t1
  let t3 := if skip_unremovable then skipUnremovableF t2 unparse_with_whitespace else t2
  if skip_whitespace then skipWhitespaceF t3 else t3

/-- Trace of the spec-claimed pass order, for comparison with `transformTrace`. -/
def claimedTransformTrace (flatten_recursion squeeze_tree skip_unremovable skip_whitespace : Bool) :
    List Pass :=
  claimedTransforms flatten_recursion squeeze_tree skip_unremovable skip_whitespace true
    (fun l => l ++ [Pass.flatten]) (fun l => l ++ [Pass.squeeze])
    (fun l _ => l ++ [Pass.skipUnremovable]) (fun l => l ++ [Pass.skipWhitespace]) []

/-! ### Configuration tables and `process_args`

Embeds `args_hdd_choices`, `args_phase_choices` (cli.py lines 29-41) and the
phase-list construction of `process_args` (cli.py lines 132-134). -/

/-- The two HDD algorithm variants selectable via `--hdd`. -/
inductive HddVariant
  | hddmin
  | hddrmin
deriving DecidableEq, Repr

/-- The reduction operators that can appear in the operator set of a phase. -/
inductive Transformation
  | prune
  | hoist
deriving DecidableEq, Repr

/-- The optional config filter of a phase. -/
inductive ConfigFilter
  | coarse_filter
deriving DecidableEq, Repr

/-- A phase parametrization: an operator set plus an optional config filter. -/
structure PhaseConfig where
  transformations : List Transformation
  config_filter : Option ConfigFilter
deriving DecidableEq, Repr

/-- The `args_hdd_choices` dictionary of cli.py lines 29-32. -/
def args_hdd_choices : String → Option HddVariant
  | "hdd" => some HddVariant.hddmin
  | "hddr" => some HddVariant.hddrmin
  | _ => none

/-- The `args_phase_choices` dictionary of cli.py lines 35-41. -/
def args_phase_choices : String → Option PhaseConfig
  | "prune" => some ⟨[Transformation.prune], none⟩
  | "coarse-prune" => some ⟨[Transformation.prune], some ConfigFilter.coarse_filter⟩
  | "hoist" => some ⟨[Transformation.hoist], none⟩
  | "prune+hoist" => some ⟨[Transformation.prune, Transformation.hoist], none⟩
  | "coarse-prune+hoist" => some ⟨[Transformation.prune, Transformation.hoist], some ConfigFilter.coarse_filter⟩
  | _ => none

/-- Embeds the Python expression `args.phase or ["prune"]`: `args.phase` is `None` when
`--phase` was never given (also falsy when an empty list), in which case the
default phase list `["prune"]` is used. -/
def phaseOrDefault (phase : Option (List String)) : List String :=
  match phase with
  | none => ["prune"]
  | some [] => ["prune"]
  | some l => l

/-- The phase-config list built by `process_args` (cli.py line 134):
`[args_phase_choices[phase] for phase in (args.phase or ["prune"])]`. -/
def process_args_phase_configs (phase : Option (List String)) : List (Option PhaseConfig) :=
  (phaseOrDefault phase).map args_phase_choices

/-! ### The `reduce` phase loop

Embeds the reduction stage of `reduce` (cli.py lines 283-304).  The `hddmin`
engine is external; the embedding passes it the same arguments the Python
call does — the current tree, the phase-scoped work directory
`join(out, "tests", "phase_%d" % phase_cnt)`, the id prefix
`("p%d" % phase_cnt,)`, the cache argument
`cache_class() if cache_class else None`, `unparse_with_whitespace`,
`hdd_star` and the phase config — and records every call it makes. -/

/-- Record of one `hddmin` call made by the phase loop of `reduce`. -/
structure HddminCall (α β γ : Type) where
  tree_in : α
  work_dir : String
  idPref : List String
  cacheArg : Option γ
  uww : Bool
  star : Bool
  phase : β
  tree_out : α
deriving Repr

/-- The phase loop of `reduce` (cli.py lines 283-304), started at phase
counter `cnt`.  Returns the final tree together with the list of `hddmin`
calls in the order they were made. -/
def reduceLoop {α β γ : Type}
    (hddminF : α → String → List String → Option γ → Bool → Bool → β → α)
    (out : String) (cache_class : Option (Unit → γ))
    (unparse_with_whitespace hdd_star : Bool)
    (cnt : Nat) (hdd_phase_configs : List β) (hdd_tree : α) :
    α × List (HddminCall α β γ) :=
  match hdd_phase_configs with
  | [] => (hdd_tree, [])
  | phase_config :: rest =>
    let tests_workdir := out ++ "/tests/phase_" ++ natDecStr cnt
    let pre := ["p" ++ natDecStr cnt]
    let cache := Option.map (fun mk => mk ()) cache_class
    let t1 := hddminF hdd_tree tests_workdir pre cache unparse_with_whitespace hdd_star phase_config
    ((reduceLoop hddminF out cache_class unparse_with_whitespace hdd_star (cnt + 1) rest t1).1,
     ⟨hdd_tree, tests_workdir, pre, cache, unparse_with_whitespace, hdd_star, phase_config, t1⟩
       :: (reduceLoop hddminF out cache_class unparse_with_whitespace hdd_star (cnt + 1) rest t1).2)

/-- The whole of `reduce` (cli.py lines 219-304): transform stage followed by
the phase loop, both driven by the same `unparse_with_whitespace` flag. -/
def reduceModel {α β γ : Type}
    (hddminF : α → String → List String → Option γ → Bool → Bool → β → α)
    (out : String) (cache_class : Option (Unit → γ))
    (unparse_with_whitespace : Bool) (hdd_phase_configs : List β) (hdd_star : Bool)
    (flatten_recursion squeeze_tree skip_unremovable skip_whitespace : Bool)
    (flattenF squeezeF : α → α) (skipUnremovableF : α → Bool → α) (skipWhitespaceF : α → α)
    (hdd_tree : α) : α × List (HddminCall α β γ) :=
  reduceLoop hddminF out cache_class unparse_with_whitespace hdd_star 0 hdd_phase_configs
    (applyTransforms flatten_recursion squeeze_tree skip_unremovable skip_whitespace
      unparse_with_whitespace flattenF squeezeF skipUnremovableF skipWhitespaceF hdd_tree)

/-! ### Candidate cache across phases

cli.py line 295 passes `cache=cache_class() if cache_class else None` to
`hddmin` — a freshly constructed (empty) cache for every phase.  The way the engine
uses that cache is not part of the driver source; it is modelled from the
spec below. -/

/-- Lookup of a memoized verdict by candidate content. -/
def lookupVerdict : List (String × Bool) → String → Option Bool
  | [], _ => none
  | (k, v) :: rest, s => if k = s then some v else lookupVerdict rest s

/-- Modelled from the spec: the engine (`hddmin`, not part of the driver
source) tests each candidate "via Cache, then external Tester if uncached"
and memoizes verdicts "by candidate content fingerprint".  Runs a list of
candidate contents through one cache; returns the final cache and the list
of contents for which the external Tester was actually invoked, in order. -/
def testCandidates (tester : String → Bool) (cache : List (String × Bool)) :
    List String → List (String × Bool) × List String
  | [] => (cache, [])
  | c :: rest =>
    if (lookupVerdict cache c).isSome then
      testCandidates tester cache rest
    else
      ((testCandidates tester ((c, tester c) :: cache) rest).1,
       c :: (testCandidates tester ((c, tester c) :: cache) rest).2)

/-- The engine step used to instantiate the phase loop for cache reasoning:
one phase submits its candidate contents to the spec-modelled engine, using
the cache argument handed over by `reduce`, and appends the Tester
invocations it causes to the running log. -/
def cachePhaseStep (tester : String → Bool) :
    List String → String → List String → Option (List (String × Bool)) → Bool → Bool →
      List String → List String :=
  fun log _ _ cacheArg _ _ candidates =>
    log ++ (testCandidates tester (cacheArg.getD []) candidates).2

/-- A whole run driven by the phase loop of `reduce` (cli.py lines 283-304):
each phase receives — exactly as in cli.py line 295 — a freshly constructed
empty cache.  Returns the contents for which the external Tester was
invoked, across all phases in order. -/
def runTesterInvocations (tester : String → Bool) (phaseCandidates : List (List String)) :
    List String :=
  (reduceLoop (cachePhaseStep tester) "" (some (fun _ => ([] : List (String × Bool))))
    true true 0 phaseCandidates []).1

/-! ### Output writing in `execute`

Embeds cli.py lines 395-401: the reduced tree is unparsed and written with
`codecs.open(out_file, "w", encoding=args.encoding, errors="ignore")`.
An encoding is modelled as a partial map from characters to byte sequences;
`errors="ignore"` silently drops every character the codec cannot encode. -/

/-- Encoding a string with `errors="ignore"`: characters the codec cannot
encode are dropped without error, as in cli.py line 399. -/
def encodeIgnore (enc : Char → Option (List Nat)) (s : List Char) : List Nat :=
  (s.map (fun c => (enc c).getD [])).flatten

/-- Strict encoding as the specification sentence demands: the file contains
exactly the encoded unparse, every character encoded, nothing dropped.
Written from the words of the spec for refinement comparison with `encodeIgnore`. -/
def encodeStrict (enc : Char → Option (List Nat)) : List Char → Option (List Nat)
  | [] => some []
  | c :: cs =>
    match enc c, encodeStrict enc cs with
    | some bs, some rest => some (bs ++ rest)
    | _, _ => none

/-- Bytes written to the output file by `execute` (cli.py lines 395-401) for
a final tree whose unparse is `out_src`. -/
def executeWrittenBytes (enc : Char → Option (List Nat)) (out_src : String) : List Nat :=
  encodeIgnore enc out_src.data

/-- An ASCII-like codec: characters below code point 128 encode to their code
point, everything else is unencodable. -/
def asciiEnc (c : Char) : Option (List Nat) :=
  if c.toNat < 128 then some [c.toNat] else none

/-! ### Builder dispatch in `execute`

Embeds cli.py lines 370-395: the builder choice determines the tree builder
and the `unparse_with_whitespace` mode, which is then passed unchanged to
`reduce` (and through it to the transforms and every `hddmin` call) and to
the final `unparse`. -/

/-- The two tree builders selectable via `--builder`. -/
inductive Builder
  | antlr4
  | srcml
deriving DecidableEq, Repr

/-- The `unparse_with_whitespace` mode computed by `execute`:
`not args.build_hidden_tokens` for the antlr4 builder (cli.py line 377),
`False` for the srcml builder (cli.py line 380). -/
def executeUww (builder : Builder) (build_hidden_tokens : Bool) : Bool :=
  match builder with
  | Builder.antlr4 => !build_hidden_tokens
  | Builder.srcml => false

/-- Result of the `execute` model: the whitespace mode handed to the
transform stage, the recorded `hddmin` calls, the whitespace mode used for
the final unparse, and the bytes written to the output file. -/
structure ExecuteResult (α β γ : Type) where
  transformUww : Bool
  calls : List (HddminCall α β γ)
  finalUww : Bool
  fileBytes : List Nat

/-- The tail of `execute` (cli.py lines 370-401): compute
`unparse_with_whitespace` from the builder, run `reduce` with it, unparse the
final tree with it, and write the result through the `errors="ignore"`
codec. -/
def executeModel {α β γ : Type} (builder : Builder) (build_hidden_tokens : Bool)
    (hddminF : α → String → List String → Option γ → Bool → Bool → β → α)
    (out : String) (cache_class : Option (Unit → γ))
    (hdd_phase_configs : List β) (hdd_star : Bool)
    (flatten_recursion squeeze_tree skip_unremovable skip_whitespace : Bool)
    (flattenF squeezeF : α → α) (skipUnremovableF : α → Bool → α) (skipWhitespaceF : α → α)
    (unparseF : α → Bool → String) (enc : Char → Option (List Nat))
    (hdd_tree : α) : ExecuteResult α β γ :=
  let uww := executeUww builder build_hidden_tokens
  let r := reduceModel hddminF out cache_class uww hdd_phase_configs hdd_star
    flatten_recursion squeeze_tree skip_unremovable skip_whitespace
    flattenF squeezeF skipUnremovableF skipWhitespaceF hdd_tree
  { transformUww := uww,
    calls := r.2,
    finalUww := uww,
    fileBytes := executeWrittenBytes enc (unparseF r.1 uww) }

/-! ### ANTLRv4 configuration processing

Embeds `process_antlr4_format` (cli.py lines 55-113) and
`process_antlr4_args` (cli.py lines 116-124).  File existence, the JSON
parse of the format config (including its path-resolving object hook) and
the JSON parse of the replacements file are effects, modelled by an explicit
environment. -/

/-- One named grammar of the input format: its grammar files, replacement
table and island table. -/
structure GrammarEntry where
  files : List String
  repls : List (String × String)
  islands : List (String × String)
deriving DecidableEq, Repr

/-- The input format: a dictionary from grammar names to entries. -/
def InputFormat : Type := List (String × GrammarEntry)

/-- Outcome of loading and JSON-parsing a format config file
(cli.py lines 76-84, including the `load_format_config` object hook). -/
inductive FormatLoadResult
  | badJson
  | ok (grammars : InputFormat) (startRule : Option String)

/-- The file-system and JSON effects used by the ANTLRv4 argument
processing. -/
structure Antlr4Env where
  pathExists : String → Bool
  realpath : String → String
  loadFormat : String → FormatLoadResult
  loadRepls : String → Option (List (String × String))

/-- Python truthiness of an optional string: `None` and the empty string are
falsy. -/
def pyTruthy : Option String → Bool
  | none => false
  | some s => !(s == "")

/-- Association lookup in an `InputFormat` dictionary. -/
def lookupEntry : InputFormat → String → Option GrammarEntry
  | [], _ => none
  | (k, e) :: rest, s => if k = s then some e else lookupEntry rest s

/-- Association update (or insert) in an `InputFormat` dictionary. -/
def setEntry : InputFormat → String → GrammarEntry → InputFormat
  | [], k, e => [(k, e)]
  | (k2, e2) :: rest, k, e =>
    if k2 = k then (k, e) :: rest else (k2, e2) :: setEntry rest k e

/-- The grammar loop of `process_antlr4_format` (cli.py lines 94-99):
each grammar file is resolved with `realpath`, appended to the files of the
default grammar, and checked for existence at index `i` of the grown list. -/
def grammarLoop (env : Antlr4Env) (fmt : InputFormat) :
    List String → Nat → Option InputFormat
  | [], _ => some fmt
  | g :: rest, i =>
    let entry := (lookupEntry fmt "").getD ⟨[], [], []⟩
    let files1 := entry.files ++ [env.realpath g]
    let fmt1 := setEntry fmt "" { entry with files := files1 }
    match files1.get? i with
    | none => none
    | some p => if env.pathExists p then grammarLoop env fmt1 rest (i + 1) else none

/-- Embedding of `process_antlr4_format` (cli.py lines 55-113).  Returns `none` for the
Python `return None, None` failure value, otherwise the input-format
dictionary and the start rule. -/
def process_antlr4_format (env : Antlr4Env) (format : Option String)
    (grammar : List String) (start : Option String) (replacements : Option String) :
    Option (InputFormat × String) :=
  let fmtStep : Option (InputFormat × Option String) :=
    if pyTruthy format then
      let f := format.getD ""
      if !env.pathExists f then none
      else
        match env.loadFormat f with
        | FormatLoadResult.badJson => none
        | FormatLoadResult.ok grammars s0 =>
          some (grammars, if pyTruthy start then start else s0)
    else some ([], start)
  match fmtStep with
  | none => none
  | some (fmt0, start1) =>
    if !pyTruthy start1 then none
    else
      let startv := start1.getD ""
      if !grammar.isEmpty || pyTruthy replacements then
        let fmt1 := if (lookupEntry fmt0 "").isSome then fmt0 else setEntry fmt0 "" ⟨[], [], []⟩
        match grammarLoop env fmt1 grammar 0 with
        | none => none
        | some fmt2 =>
          if pyTruthy replacements then
            let r := replacements.getD ""
            if !env.pathExists r then none
            else
              match env.loadRepls r with
              | none => none
              | some repl =>
                let entry := (lookupEntry fmt2 "").getD ⟨[], [], []⟩
                some (setEntry fmt2 "" { entry with repls := repl }, startv)
          else some (fmt2, startv)
      else some (fmt0, startv)

/-- Result of `process_antlr4_args`: the resolved ANTLR path, the input
format and the start rule. -/
structure ProcessedAntlr4 where
  antlr : String
  input_format : InputFormat
  start : String

/-- Embedding of `process_antlr4_args` (cli.py lines 116-124).  `antlrResolved` is the
outcome of `process_antlr4_path`; a `none` from either step becomes an
argument-parser error (`Except.error`). -/
def process_antlr4_args (env : Antlr4Env) (antlrResolved : Option String)
    (format : Option String) (grammar : List String) (start : Option String)
    (replacements : Option String) : Except String ProcessedAntlr4 :=
  match antlrResolved with
  | none => Except.error "Invalid ANTLR definition."
  | some a =>
    match process_antlr4_format env format grammar start replacements with
    | none => Except.error "Invalid input format definition."
    | some (fmt, st) => Except.ok ⟨a, fmt, st⟩

/-- Whether an `Except` result is the error case. -/
def exceptIsError {ε α : Type} : Except ε α → Bool
  | Except.error _ => true
  | Except.ok _ => false

/-- A concrete effect environment in which no path exists and no JSON file
parses, used to exercise the configuration-processing theorems. -/
def envW : Antlr4Env :=
  { pathExists := fun _ => false
    realpath := fun s2 => s2
    loadFormat := fun _ => FormatLoadResult.badJson
    loadRepls := fun _ => none }

/-! ### Lemmas and claim theorems -/

theorem decStrVal_natDecStr (n : Nat) : decStrVal (natDecStr n) = n := by
  unfold natDecStr decStrVal
  by_cases h : n = 0
  · subst h; decide
  · simp only [h, if_false]
    show Nat.ofDigits 10
        ((((Nat.digits 10 n).map (fun d => Char.ofNat (48 + d))).reverse.map
          (fun c => c.toNat - 48)).reverse) = n
    rw [List.map_reverse, List.reverse_reverse, List.map_map]
    have hmap : (Nat.digits 10 n).map ((fun c => c.toNat - 48) ∘ (fun d => Char.ofNat (48 + d)))
        = (Nat.digits 10 n).map id := by
      apply List.map_congr_left
      intro d hd
      have hlt : d < 10 := Nat.digits_lt_base (by norm_num) hd
      have : ∀ d, d < 10 → (Char.ofNat (48 + d)).toNat - 48 = d := by decide
      simpa using this d hlt
    rw [hmap, List.map_id]
    exact Nat.ofDigits_digits 10 n

theorem natDecStr_injective : Function.Injective natDecStr :=
  Function.LeftInverse.injective decStrVal_natDecStr

theorem string_append_natDecStr_inj (s : String) {m n : Nat}
    (h : s ++ natDecStr m = s ++ natDecStr n) : m = n := by
  have hd : (s ++ natDecStr m).data = (s ++ natDecStr n).data := congrArg String.data h
  rw [String.data_append, String.data_append] at hd
  exact natDecStr_injective (String.ext (List.append_cancel_left hd))

theorem reduceLoop_calls_length {α β γ : Type}
    (hddminF : α → String → List String → Option γ → Bool → Bool → β → α)
    (out : String) (cc : Option (Unit → γ)) (u s : Bool) :
    ∀ (ph : List β) (cnt : Nat) (t : α),
      (reduceLoop hddminF out cc u s cnt ph t).2.length = ph.length := by
  intro ph
  induction ph with
  | nil => intro cnt t; rfl
  | cons cfg rest ih =>
    intro cnt t
    simp only [reduceLoop, List.length_cons]
    rw [ih]

theorem reduceLoop_calls_phase {α β γ : Type}
    (hddminF : α → String → List String → Option γ → Bool → Bool → β → α)
    (out : String) (cc : Option (Unit → γ)) (u s : Bool) :
    ∀ (ph : List β) (cnt : Nat) (t : α),
      (reduceLoop hddminF out cc u s cnt ph t).2.map (fun c => c.phase) = ph := by
  intro ph
  induction ph with
  | nil => intro cnt t; rfl
  | cons cfg rest ih =>
    intro cnt t
    simp only [reduceLoop, List.map_cons]
    rw [ih]

theorem reduceLoop_calls_get {α β γ : Type}
    (hddminF : α → String → List String → Option γ → Bool → Bool → β → α)
    (out : String) (cc : Option (Unit → γ)) (u s : Bool) :
    ∀ (ph : List β) (cnt : Nat) (t : α) (i : Nat)
      (h : i < (reduceLoop hddminF out cc u s cnt ph t).2.length),
      ((reduceLoop hddminF out cc u s cnt ph t).2.get ⟨i, h⟩).work_dir
          = out ++ "/tests/phase_" ++ natDecStr (cnt + i) ∧
        ((reduceLoop hddminF out cc u s cnt ph t).2.get ⟨i, h⟩).idPref
          = ["p" ++ natDecStr (cnt + i)] ∧
        ((reduceLoop hddminF out cc u s cnt ph t).2.get ⟨i, h⟩).cacheArg
          = Option.map (fun mk => mk ()) cc ∧
        ((reduceLoop hddminF out cc u s cnt ph t).2.get ⟨i, h⟩).uww = u ∧
        ((reduceLoop hddminF out cc u s cnt ph t).2.get ⟨i, h⟩).star = s := by
  intro ph
  induction ph with
  | nil => intro cnt t i h; simp [reduceLoop] at h
  | cons cfg rest ih =>
    intro cnt t i h
    match i, h with
    | 0, h => exact ⟨rfl, rfl, rfl, rfl, rfl⟩
    | Nat.succ k, h =>
      have h' : k < (reduceLoop hddminF out cc u s (cnt + 1) rest
          (hddminF t (out ++ "/tests/phase_" ++ natDecStr cnt) (["p" ++ natDecStr cnt])
            (Option.map (fun mk => mk ()) cc) u s cfg)).2.length := by
        have hh := h
        rw [reduceLoop_calls_length] at hh
        rw [reduceLoop_calls_length]
        simp only [List.length_cons] at hh
        omega
      have hrec := ih (cnt + 1)
        (hddminF t (out ++ "/tests/phase_" ++ natDecStr cnt) (["p" ++ natDecStr cnt])
          (Option.map (fun mk => mk ()) cc) u s cfg) k h'
      have harith : cnt + 1 + k = cnt + (k + 1) := by
        rw [Nat.add_assoc, Nat.add_comm 1 k]
      rw [harith] at hrec
      exact hrec

theorem reduceLoop_calls_chain {α β γ : Type}
    (hddminF : α → String → List String → Option γ → Bool → Bool → β → α)
    (out : String) (cc : Option (Unit → γ)) (u s : Bool) :
    ∀ (ph : List β) (cnt : Nat) (t : α),
      (∀ (h : 0 < (reduceLoop hddminF out cc u s cnt ph t).2.length),
        ((reduceLoop hddminF out cc u s cnt ph t).2.get ⟨0, h⟩).tree_in = t) ∧
      (∀ (i : Nat) (h : i < (reduceLoop hddminF out cc u s cnt ph t).2.length),
        ((reduceLoop hddminF out cc u s cnt ph t).2.get ⟨i, h⟩).tree_out
          = hddminF ((reduceLoop hddminF out cc u s cnt ph t).2.get ⟨i, h⟩).tree_in
              ((reduceLoop hddminF out cc u s cnt ph t).2.get ⟨i, h⟩).work_dir
              ((reduceLoop hddminF out cc u s cnt ph t).2.get ⟨i, h⟩).idPref
              ((reduceLoop hddminF out cc u s cnt ph t).2.get ⟨i, h⟩).cacheArg
              ((reduceLoop hddminF out cc u s cnt ph t).2.get ⟨i, h⟩).uww
              ((reduceLoop hddminF out cc u s cnt ph t).2.get ⟨i, h⟩).star
              ((reduceLoop hddminF out cc u s cnt ph t).2.get ⟨i, h⟩).phase) ∧
      (∀ (i : Nat) (h : i + 1 < (reduceLoop hddminF out cc u s cnt ph t).2.length),
        ((reduceLoop hddminF out cc u s cnt ph t).2.get ⟨i + 1, h⟩).tree_in
          = ((reduceLoop hddminF out cc u s cnt ph t).2.get
              ⟨i, Nat.lt_of_succ_lt h⟩).tree_out) := by
  intro ph
  induction ph with
  | nil =>
    intro cnt t
    refine ⟨?_, ?_, ?_⟩
    · intro h; simp [reduceLoop] at h
    · intro i h; simp [reduceLoop] at h
    · intro i h; simp [reduceLoop] at h
  | cons cfg rest ih =>
    intro cnt t
    refine ⟨fun _ => rfl, ?_, ?_⟩
    · intro i h
      match i, h with
      | 0, h => rfl
      | Nat.succ k, h =>
        have h' : k < (reduceLoop hddminF out cc u s (cnt + 1) rest
            (hddminF t (out ++ "/tests/phase_" ++ natDecStr cnt) (["p" ++ natDecStr cnt])
              (Option.map (fun mk => mk ()) cc) u s cfg)).2.length := by
          have hh := h
          rw [reduceLoop_calls_length] at hh
          rw [reduceLoop_calls_length]
          simp only [List.length_cons] at hh
          omega
        exact (ih (cnt + 1) _).2.1 k h'
    · intro i h
      match i, h with
      | 0, h =>
        have h0 : 0 < (reduceLoop hddminF out cc u s (cnt + 1) rest
            (hddminF t (out ++ "/tests/phase_" ++ natDecStr cnt) (["p" ++ natDecStr cnt])
              (Option.map (fun mk => mk ()) cc) u s cfg)).2.length := by
          have hh := h
          rw [reduceLoop_calls_length] at hh
          rw [reduceLoop_calls_length]
          simp only [List.length_cons] at hh
          omega
        exact (ih (cnt + 1) _).1 h0
      | Nat.succ k, h =>
        have h' : k + 1 < (reduceLoop hddminF out cc u s (cnt + 1) rest
            (hddminF t (out ++ "/tests/phase_" ++ natDecStr cnt) (["p" ++ natDecStr cnt])
              (Option.map (fun mk => mk ()) cc) u s cfg)).2.length := by
          have hh := h
          rw [reduceLoop_calls_length] at hh
          rw [reduceLoop_calls_length]
          simp only [List.length_cons] at hh
          omega
        exact (ih (cnt + 1) _).2.2 k h'

theorem runTesterInvocations_spec (tester : String → Bool) :
    ∀ (pcs : List (List String)) (cnt : Nat) (log : List String),
      (reduceLoop (cachePhaseStep tester) "" (some (fun _ => ([] : List (String × Bool))))
        true true cnt pcs log).1
      = log ++ (pcs.map (fun cs => (testCandidates tester [] cs).2)).flatten := by
  intro pcs
  induction pcs with
  | nil => intro cnt log; simp [reduceLoop]
  | cons cs rest ih =>
    intro cnt log
    show (reduceLoop (cachePhaseStep tester) "" _ true true (cnt + 1) rest
        (cachePhaseStep tester log _ _ _ _ _ cs)).1 = _
    rw [ih (cnt + 1)]
    simp [cachePhaseStep, List.append_assoc]

theorem testCandidates_not_invoked_of_cached (tester : String → Bool) (content : String) :
    ∀ (cs : List String) (cache : List (String × Bool)),
      (lookupVerdict cache content).isSome →
      content ∉ (testCandidates tester cache cs).2 := by
  intro cs
  induction cs with
  | nil => intro cache _h hmem; simp [testCandidates] at hmem
  | cons c rest ih =>
    intro cache hcached hmem
    rw [testCandidates] at hmem
    by_cases hc : (lookupVerdict cache c).isSome
    · rw [if_pos hc] at hmem
      exact ih cache hcached hmem
    · rw [if_neg hc] at hmem
      rcases List.mem_cons.mp hmem with heq | hmem2
      · subst heq
        exact hc hcached
      · have hcached2 : (lookupVerdict ((c, tester c) :: cache) content).isSome := by
          rw [lookupVerdict]
          by_cases hkc : c = content
          · rw [if_pos hkc]; rfl
          · rw [if_neg hkc]; exact hcached
        exact ih ((c, tester c) :: cache) hcached2 hmem2

theorem testCandidates_count_le_one (tester : String → Bool) (content : String) :
    ∀ (cs : List String) (cache : List (String × Bool)),
      ((testCandidates tester cache cs).2.count content) ≤ 1 := by
  intro cs
  induction cs with
  | nil => intro cache; simp [testCandidates]
  | cons c rest ih =>
    intro cache
    rw [testCandidates]
    by_cases hc : (lookupVerdict cache c).isSome
    · rw [if_pos hc]
      exact ih cache
    · rw [if_neg hc]
      by_cases heq : c = content
      · subst heq
        have hnot : c ∉ (testCandidates tester ((c, tester c) :: cache) rest).2 := by
          apply testCandidates_not_invoked_of_cached
          rw [lookupVerdict, if_pos rfl]
          rfl
        simp [List.count_cons, List.count_eq_zero_of_not_mem hnot]
      · have hb : (c == content) = false := by
          simp only [beq_eq_false_iff_ne, ne_eq]
          exact heq
        simp only [List.count_cons, hb, if_false]
        simpa using ih ((c, tester c) :: cache)

theorem count_join_le_length (content : String) :
    ∀ (ls : List (List String)),
      (∀ l ∈ ls, l.count content ≤ 1) → (ls.flatten.count content) ≤ ls.length := by
  intro ls
  induction ls with
  | nil => intro _h; simp
  | cons l rest ih =>
    intro h
    rw [List.flatten_cons, List.count_append, List.length_cons]
    have h1 : l.count content ≤ 1 := h l (List.mem_cons_self l rest)
    have h2 : (rest.flatten.count content) ≤ rest.length :=
      ih (fun l2 hl2 => h l2 (List.mem_cons_of_mem l hl2))
    omega

theorem encodeIgnore_eq_strict (enc : Char → Option (List Nat)) :
    ∀ (s : List Char), (∀ c ∈ s, (enc c).isSome) →
      encodeStrict enc s = some (encodeIgnore enc s) := by
  intro s
  induction s with
  | nil => intro _h; rfl
  | cons c cs ih =>
    intro h
    have hc : (enc c).isSome := h c (List.mem_cons_self c cs)
    rcases hopt : enc c with _ | bs
    · rw [hopt] at hc; simp at hc
    · rw [encodeStrict, hopt, ih (fun d hd => h d (List.mem_cons_of_mem c hd))]
      simp [encodeIgnore, hopt]

theorem reduceLoop_calls_cache_map {α β γ : Type}
    (hddminF : α → String → List String → Option γ → Bool → Bool → β → α)
    (out : String) (cc : Option (Unit → γ)) (u s : Bool) :
    ∀ (ph : List β) (cnt : Nat) (t : α),
      (reduceLoop hddminF out cc u s cnt ph t).2.map (fun c => c.cacheArg)
        = ph.map (fun _ => Option.map (fun mk => mk ()) cc) := by
  intro ph
  induction ph with
  | nil => intro cnt t; rfl
  | cons cfg rest ih =>
    intro cnt t
    simp only [reduceLoop, List.map_cons]
    rw [ih]

theorem reduceLoop_calls_uww_map {α β γ : Type}
    (hddminF : α → String → List String → Option γ → Bool → Bool → β → α)
    (out : String) (cc : Option (Unit → γ)) (u s : Bool) :
    ∀ (ph : List β) (cnt : Nat) (t : α),
      (reduceLoop hddminF out cc u s cnt ph t).2.map (fun c => c.uww)
        = ph.map (fun _ => u) := by
  intro ph
  induction ph with
  | nil => intro cnt t; rfl
  | cons cfg rest ih =>
    intro cnt t
    simp only [reduceLoop, List.map_cons]
    rw [ih]

/-- Claim C3 (counterexample): the pipeline does not apply squeeze before
flatten-recursion — with all four flags enabled, the order actually applied
by `reduce` differs from the order the claim states. -/
theorem claim_C3_counterexample :
    transformTrace true true true true ≠ claimedTransformTrace true true true true := by
  decide

/-- Claim C3 (amended): the transform pipeline applies its passes in the
fixed order flatten_recursion first, then squeeze_tree, then
skip_unremovable, then skip_whitespace, restricted to the passes whose flags
are enabled, for every combination of flags. -/
theorem claim_C3 (flatten_recursion squeeze_tree skip_unremovable skip_whitespace : Bool) :
    transformTrace flatten_recursion squeeze_tree skip_unremovable skip_whitespace
      = (if flatten_recursion then [Pass.flatten] else [])
        ++ (if squeeze_tree then [Pass.squeeze] else [])
        ++ (if skip_unremovable then [Pass.skipUnremovable] else [])
        ++ (if skip_whitespace then [Pass.skipWhitespace] else []) := by
  cases flatten_recursion <;> cases squeeze_tree <;> cases skip_unremovable <;>
    cases skip_whitespace <;> rfl

/-- Claim C7: each transform pass is applied exactly when its flag is true —
with all four flags false the tree reaching the phase loop is the input tree
unchanged — and `skip_unremovable` receives the `unparse_with_whitespace`
flag. -/
theorem claim_C7 :
    (∀ (α : Type) (uww : Bool) (fF sF : α → α) (suF : α → Bool → α) (swF : α → α) (t : α),
      applyTransforms false false false false uww fF sF suF swF t = t) ∧
    (∀ (α : Type) (uww : Bool) (fF sF : α → α) (suF : α → Bool → α) (swF : α → α) (t : α),
      applyTransforms false false true false uww fF sF suF swF t = suF t uww) ∧
    (∀ fl sq su sw : Bool,
      ((Pass.flatten ∈ transformTrace fl sq su sw) ↔ fl = true) ∧
      ((Pass.squeeze ∈ transformTrace fl sq su sw) ↔ sq = true) ∧
      ((Pass.skipUnremovable ∈ transformTrace fl sq su sw) ↔ su = true) ∧
      ((Pass.skipWhitespace ∈ transformTrace fl sq su sw) ↔ sw = true)) := by
  refine ⟨fun α uww fF sF suF swF t => rfl, fun α uww fF sF suF swF t => rfl, ?_⟩
  intro fl sq su sw
  cases fl <;> cases sq <;> cases su <;> cases sw <;>
    exact ⟨by decide, by decide, by decide, by decide⟩

/-- Claim C9: when the user specifies no phase at all, the run is configured
with exactly one phase, the prune operator with no config filter. -/
theorem claim_C9 :
    phaseOrDefault none = ["prune"] ∧
    process_args_phase_configs none
      = [some (⟨[Transformation.prune], none⟩ : PhaseConfig)] :=
  ⟨rfl, rfl⟩

/-- Claim C8: the configuration surface maps "hdd" to hddmin and "hddr" to
hddrmin; among the five named phase parametrizations exactly the two coarse
ones carry the coarse config filter; and the phase-config list handed to
`reduce` is the chosen parametrizations in the order the user named them. -/
theorem claim_C8 :
    (args_hdd_choices "hdd" = some HddVariant.hddmin ∧
     args_hdd_choices "hddr" = some HddVariant.hddrmin) ∧
    (∀ name ∈ (["prune", "coarse-prune", "hoist", "prune+hoist",
        "coarse-prune+hoist"] : List String),
      (args_phase_choices name).isSome = true ∧
      (((args_phase_choices name).bind (fun cfg => cfg.config_filter)).isSome = true
        ↔ (name = "coarse-prune" ∨ name = "coarse-prune+hoist"))) ∧
    (∀ names : List String, names ≠ [] →
      process_args_phase_configs (some names) = names.map args_phase_choices) := by
  refine ⟨⟨rfl, rfl⟩, by decide, ?_⟩
  intro names hne
  cases names with
  | nil => exact absurd rfl hne
  | cons n rest => rfl

/-- Witness for C8 at the phase name "coarse-prune" and the user-ordered
phase list ["hoist", "prune"]. -/
theorem claim_C8_witness :
    ((args_phase_choices "coarse-prune").isSome = true ∧
      (((args_phase_choices "coarse-prune").bind (fun cfg => cfg.config_filter)).isSome = true
        ↔ ("coarse-prune" = "coarse-prune" ∨ "coarse-prune" = "coarse-prune+hoist"))) ∧
    process_args_phase_configs (some ["hoist", "prune"])
      = ["hoist", "prune"].map args_phase_choices :=
  ⟨claim_C8.2.1 "coarse-prune" (by decide), claim_C8.2.2 ["hoist", "prune"] (by decide)⟩

/-- Claim C4: the phase loop of `reduce` runs the configured phases strictly
in list order, hands phase i+1 exactly the tree returned by the hddmin call
of phase i, and gives every phase a candidate-materialization namespace
(work directory and id prefix) distinct from that of every other phase. -/
theorem claim_C4 (α β γ : Type)
    (hddminF : α → String → List String → Option γ → Bool → Bool → β → α)
    (out : String) (cache_class : Option (Unit → γ)) (u s : Bool)
    (phases : List β) (t : α) :
    ((reduceLoop hddminF out cache_class u s 0 phases t).2.map (fun c => c.phase) = phases) ∧
    (∀ (h : 0 < (reduceLoop hddminF out cache_class u s 0 phases t).2.length),
      ((reduceLoop hddminF out cache_class u s 0 phases t).2.get ⟨0, h⟩).tree_in = t) ∧
    (∀ (i : Nat) (h : i + 1 < (reduceLoop hddminF out cache_class u s 0 phases t).2.length),
      ((reduceLoop hddminF out cache_class u s 0 phases t).2.get ⟨i + 1, h⟩).tree_in
        = ((reduceLoop hddminF out cache_class u s 0 phases t).2.get
            ⟨i, Nat.lt_of_succ_lt h⟩).tree_out) ∧
    (∀ (i : Nat) (h : i < (reduceLoop hddminF out cache_class u s 0 phases t).2.length),
      ((reduceLoop hddminF out cache_class u s 0 phases t).2.get ⟨i, h⟩).tree_out
        = hddminF ((reduceLoop hddminF out cache_class u s 0 phases t).2.get ⟨i, h⟩).tree_in
            ((reduceLoop hddminF out cache_class u s 0 phases t).2.get ⟨i, h⟩).work_dir
            ((reduceLoop hddminF out cache_class u s 0 phases t).2.get ⟨i, h⟩).idPref
            ((reduceLoop hddminF out cache_class u s 0 phases t).2.get ⟨i, h⟩).cacheArg
            ((reduceLoop hddminF out cache_class u s 0 phases t).2.get ⟨i, h⟩).uww
            ((reduceLoop hddminF out cache_class u s 0 phases t).2.get ⟨i, h⟩).star
            ((reduceLoop hddminF out cache_class u s 0 phases t).2.get ⟨i, h⟩).phase) ∧
    (∀ (i j : Nat) (hi : i < (reduceLoop hddminF out cache_class u s 0 phases t).2.length)
        (hj : j < (reduceLoop hddminF out cache_class u s 0 phases t).2.length), i ≠ j →
      ((reduceLoop hddminF out cache_class u s 0 phases t).2.get ⟨i, hi⟩).work_dir
          ≠ ((reduceLoop hddminF out cache_class u s 0 phases t).2.get ⟨j, hj⟩).work_dir ∧
        ((reduceLoop hddminF out cache_class u s 0 phases t).2.get ⟨i, hi⟩).idPref
          ≠ ((reduceLoop hddminF out cache_class u s 0 phases t).2.get ⟨j, hj⟩).idPref) := by
  refine ⟨reduceLoop_calls_phase hddminF out cache_class u s phases 0 t,
    (reduceLoop_calls_chain hddminF out cache_class u s phases 0 t).1,
    (reduceLoop_calls_chain hddminF out cache_class u s phases 0 t).2.2,
    (reduceLoop_calls_chain hddminF out cache_class u s phases 0 t).2.1,
    ?_⟩
  intro i j hi hj hij
  have hwi := reduceLoop_calls_get hddminF out cache_class u s phases 0 t i hi
  have hwj := reduceLoop_calls_get hddminF out cache_class u s phases 0 t j hj
  constructor
  · rw [hwi.1, hwj.1]
    intro he
    have hn := string_append_natDecStr_inj (out ++ "/tests/phase_") he
    rw [Nat.zero_add, Nat.zero_add] at hn
    exact hij hn
  · rw [hwi.2.1, hwj.2.1]
    intro he
    have he2 : "p" ++ natDecStr (0 + i) = "p" ++ natDecStr (0 + j) := by
      injection he
    have hn := string_append_natDecStr_inj "p" he2
    rw [Nat.zero_add, Nat.zero_add] at hn
    exact hij hn

/-- Witness for C4: a two-phase run in which phase 1 receives the output
tree of phase 0 and the two phases get distinct work directories. -/
theorem claim_C4_witness :
    ((reduceLoop
        (fun (t : Nat) (_ : String) (_ : List String) (_ : Option Nat) (_ : Bool) (_ : Bool)
          (p : Nat) => t + p) "o" none true true 0 [7, 8] 5).2.map (fun c => c.phase)
      = [7, 8]) ∧
    (((reduceLoop
        (fun (t : Nat) (_ : String) (_ : List String) (_ : Option Nat) (_ : Bool) (_ : Bool)
          (p : Nat) => t + p) "o" none true true 0 [7, 8] 5).2.get
        ⟨1, by rw [reduceLoop_calls_length]; decide⟩).tree_in
      = ((reduceLoop
          (fun (t : Nat) (_ : String) (_ : List String) (_ : Option Nat) (_ : Bool) (_ : Bool)
            (p : Nat) => t + p) "o" none true true 0 [7, 8] 5).2.get
          ⟨0, by rw [reduceLoop_calls_length]; decide⟩).tree_out) ∧
    (((reduceLoop
        (fun (t : Nat) (_ : String) (_ : List String) (_ : Option Nat) (_ : Bool) (_ : Bool)
          (p : Nat) => t + p) "o" none true true 0 [7, 8] 5).2.get
        ⟨0, by rw [reduceLoop_calls_length]; decide⟩).work_dir
      ≠ ((reduceLoop
          (fun (t : Nat) (_ : String) (_ : List String) (_ : Option Nat) (_ : Bool) (_ : Bool)
            (p : Nat) => t + p) "o" none true true 0 [7, 8] 5).2.get
          ⟨1, by rw [reduceLoop_calls_length]; decide⟩).work_dir) := by
  refine ⟨(claim_C4 Nat Nat Nat
      (fun t _ _ _ _ _ p => t + p) "o" none true true [7, 8] 5).1, ?_, ?_⟩
  · exact (claim_C4 Nat Nat Nat
      (fun t _ _ _ _ _ p => t + p) "o" none true true [7, 8] 5).2.2.1 0
      (by rw [reduceLoop_calls_length]; decide)
  · exact ((claim_C4 Nat Nat Nat
      (fun t _ _ _ _ _ p => t + p) "o" none true true [7, 8] 5).2.2.2.2 0 1
      (by rw [reduceLoop_calls_length]; decide)
      (by rw [reduceLoop_calls_length]; decide) (by decide)).1

/-- Claim C6: an absent cache is never fatal — with `cache_class = None`
the hddmin call of every phase still runs, each receiving `cache = None`, and the
loop completes over the whole phase list. -/
theorem claim_C6 (α β γ : Type)
    (hddminF : α → String → List String → Option γ → Bool → Bool → β → α)
    (out : String) (u s : Bool) (phases : List β) (t : α) :
    ((reduceLoop hddminF out none u s 0 phases t).2.map (fun c => c.phase) = phases) ∧
    ((reduceLoop hddminF out none u s 0 phases t).2.length = phases.length) ∧
    ((reduceLoop hddminF out none u s 0 phases t).2.map (fun c => c.cacheArg)
      = phases.map (fun _ => (none : Option γ))) :=
  ⟨reduceLoop_calls_phase hddminF out none u s phases 0 t,
   reduceLoop_calls_length hddminF out none u s phases 0 t,
   reduceLoop_calls_cache_map hddminF out none u s phases 0 t⟩

/-- Claim C1 (counterexample): the Tester is not invoked at most once per
content across a whole run — with two phases whose searches submit the same
content, the fresh per-phase cache of cli.py line 295 lets the second phase
re-test it. -/
theorem claim_C1_counterexample :
    ¬ ((runTesterInvocations (fun _ => true) [["x"], ["x"]]).count "x" ≤ 1) := by
  unfold runTesterInvocations
  rw [runTesterInvocations_spec (fun _ => true) [["x"], ["x"]] 0 []]
  decide

/-- Claim C1 (amended): within any single phase the Tester is invoked at
most once per unparsed content (the cache of the phase makes later tests of the
same content cache hits), and hence across a whole run the Tester is
invoked at most once per phase for any given content. -/
theorem claim_C1 :
    (∀ (tester : String → Bool) (candidates : List String) (content : String),
      ((testCandidates tester [] candidates).2.count content) ≤ 1) ∧
    (∀ (tester : String → Bool) (phaseCandidates : List (List String)) (content : String),
      ((runTesterInvocations tester phaseCandidates).count content)
        ≤ phaseCandidates.length) := by
  constructor
  · intro tester cs content
    exact testCandidates_count_le_one tester content cs []
  · intro tester pcs content
    unfold runTesterInvocations
    rw [runTesterInvocations_spec tester pcs 0 [], List.nil_append]
    have h2 := count_join_le_length content (pcs.map (fun cs => (testCandidates tester [] cs).2))
      (by
        intro l hl
        obtain ⟨cs, _hcs, rfl⟩ := List.mem_map.mp hl
        exact testCandidates_count_le_one tester content cs [])
    rwa [List.length_map] at h2

/-- Claim C2 (counterexample): the output file does not always contain every
character of the unparsed final tree — with an ASCII codec and a final tree
unparsing to "aé", the `errors="ignore"` open of cli.py line 399 silently
drops the unencodable character and writes only the byte for "a". -/
theorem claim_C2_counterexample :
    executeWrittenBytes asciiEnc "aé" = [97] ∧
    encodeStrict asciiEnc ("aé".data) = none := by
  constructor <;> decide

/-- Claim C2 (amended): the output file contains the unparsed final tree
encoded in the configured encoding with unencodable characters silently
dropped; whenever every character of the unparse is encodable, the file is
exactly the full encoding. -/
theorem claim_C2 (enc : Char → Option (List Nat)) (out_src : String)
    (h : ∀ c ∈ out_src.data, (enc c).isSome) :
    encodeStrict enc out_src.data = some (executeWrittenBytes enc out_src) :=
  encodeIgnore_eq_strict enc out_src.data h

/-- Witness for C2 at the ASCII codec and the all-encodable unparse "ab". -/
theorem claim_C2_witness :
    encodeStrict asciiEnc ("ab".data) = some (executeWrittenBytes asciiEnc "ab") :=
  claim_C2 asciiEnc "ab" (by decide)

/-- Claim C5: if no start rule is supplied, neither directly nor via the
format file, then `process_antlr4_format` returns the failure value (the
Python `None, None`) and `process_antlr4_args` turns the failure into an
argument-parser error, for every such configuration. -/
theorem claim_C5 (env : Antlr4Env) (format : Option String) (grammar : List String)
    (start : Option String) (replacements : Option String)
    (hstart : pyTruthy start = false)
    (hfmt : ∀ (g : InputFormat) (s0 : Option String),
      env.loadFormat (format.getD "") = FormatLoadResult.ok g s0 → pyTruthy s0 = false) :
    process_antlr4_format env format grammar start replacements = none ∧
    (∀ antlrResolved : Option String,
      exceptIsError (process_antlr4_args env antlrResolved format grammar start
        replacements) = true) := by
  have hmain : process_antlr4_format env format grammar start replacements = none := by
    by_cases hf : pyTruthy format
    · by_cases he : env.pathExists (format.getD "")
      · cases hload : env.loadFormat (format.getD "") with
        | badJson => simp [process_antlr4_format, hf, he, hload]
        | ok g s0 =>
          have hs0 := hfmt g s0 hload
          simp [process_antlr4_format, hf, he, hload, hstart, hs0]
      · simp [process_antlr4_format, hf, he]
    · simp [process_antlr4_format, hf, hstart]
  refine ⟨hmain, ?_⟩
  intro antlrResolved
  cases antlrResolved with
  | none => rfl
  | some a =>
    unfold process_antlr4_args
    rw [hmain]
    rfl

/-- Witness for C5: a configuration with no format file and no start rule
fails in `process_antlr4_format` and is reported as an argument-parser
error. -/
theorem claim_C5_witness :
    process_antlr4_format envW none [] none none = none ∧
    exceptIsError (process_antlr4_args envW none none [] none none) = true := by
  have h := claim_C5 envW none [] none none rfl (fun g s0 hc => nomatch hc)
  exact ⟨h.1, h.2 none⟩

/-- Claim C10: the whitespace-synthesis mode used for the transforms, every
hddmin call, and the final unparse is the single value computed from the
builder — the negation of the build-hidden-tokens flag for the antlr4
builder, and always off for the srcml builder. -/
theorem claim_C10 (α β γ : Type) (builder : Builder) (build_hidden_tokens : Bool)
    (hddminF : α → String → List String → Option γ → Bool → Bool → β → α)
    (out : String) (cache_class : Option (Unit → γ))
    (phases : List β) (star fl sq su sw : Bool)
    (fF sF : α → α) (suF : α → Bool → α) (swF : α → α)
    (unparseF : α → Bool → String) (enc : Char → Option (List Nat)) (t : α) :
    ((executeModel builder build_hidden_tokens hddminF out cache_class phases star
        fl sq su sw fF sF suF swF unparseF enc t).transformUww
      = executeUww builder build_hidden_tokens) ∧
    ((executeModel builder build_hidden_tokens hddminF out cache_class phases star
        fl sq su sw fF sF suF swF unparseF enc t).finalUww
      = executeUww builder build_hidden_tokens) ∧
    ((executeModel builder build_hidden_tokens hddminF out cache_class phases star
        fl sq su sw fF sF suF swF unparseF enc t).calls.map (fun c => c.uww)
      = phases.map (fun _ => executeUww builder build_hidden_tokens)) ∧
    (executeUww Builder.antlr4 build_hidden_tokens = !build_hidden_tokens) ∧
    (executeUww Builder.srcml build_hidden_tokens = false) := by
  refine ⟨rfl, rfl, ?_, rfl, rfl⟩
  exact reduceLoop_calls_uww_map hddminF out cache_class
    (executeUww builder build_hidden_tokens) star phases 0
    (applyTransforms fl sq su sw (executeUww builder build_hidden_tokens)
      fF sF suF swF t)

end Picireny
